import Mathlib

/-!
# RFC 3526 Diffie-Hellman groups

A shallow embedding of `dh/groups.go`: the six canonical hexadecimal literals,
the lazily initialised package-level cache guarded by a `sync.Once`, and the
three accessors `RFC3526_2048`, `RFC3526_3072` and `RFC3526_4096`, each of
which returns a freshly allocated copy of a cached group.

Pointers are modelled explicitly.  A `*big.Int` is an optional address into a
heap of integer cells and a `*Group` is an optional address into a heap of
`Group` cells (an address is the index of the cell); `none` is the nil
pointer.  A nil dereference (a Go panic) is the result `none` of an operation.
-/

set_option exponentiation.threshold 5000
set_option maxRecDepth 100000

namespace Dh

/-! ## The canonical literals (the `const` block) -/

/-- Generator literal of the 2048 bit group. -/
def rfc3526_2048G : String :=
  "02"

/-- Modulus literal of the 2048 bit group. -/
def rfc3526_2048P : String :=
  "FFFFFFFFFFFFFFFFC90FDAA22168C234C4C6628B80DC1CD129024E088A67CC74020BBEA63B139B22514A08798E3" ++
  "404DDEF9519B3CD3A431B302B0A6DF25F14374FE1356D6D51C245E485B576625E7EC6F44C42E9A637ED6B0BFF5CB6F406B7EDEE386BF" ++
  "B5A899FA5AE9F24117C4B1FE649286651ECE45B3DC2007CB8A163BF0598DA48361C55D39A69163FA8FD24CF5F83655D23DCA3AD961C6" ++
  "2F356208552BB9ED529077096966D670C354E4ABC9804F1746C08CA18217C32905E462E36CE3BE39E772C180E86039B2783A2EC07A28" ++
  "FB5C55DF06F4C52C9DE2BCBF6955817183995497CEA956AE515D2261898FA051015728E5A8AACAA68FFFFFFFFFFFFFFFF"

/-- Generator literal of the 3072 bit group. -/
def rfc3526_3072G : String :=
  "02"

/-- Modulus literal of the 3072 bit group. -/
def rfc3526_3072P : String :=
  "FFFFFFFFFFFFFFFFC90FDAA22168C234C4C6628B80DC1CD129024E088A67CC74020BBEA63B139B22514A08798E3" ++
  "404DDEF9519B3CD3A431B302B0A6DF25F14374FE1356D6D51C245E485B576625E7EC6F44C42E9A637ED6B0BFF5CB6F406B7EDEE386BF" ++
  "B5A899FA5AE9F24117C4B1FE649286651ECE45B3DC2007CB8A163BF0598DA48361C55D39A69163FA8FD24CF5F83655D23DCA3AD961C6" ++
  "2F356208552BB9ED529077096966D670C354E4ABC9804F1746C08CA18217C32905E462E36CE3BE39E772C180E86039B2783A2EC07A28" ++
  "FB5C55DF06F4C52C9DE2BCBF6955817183995497CEA956AE515D2261898FA051015728E5A8AAAC42DAD33170D04507A33A85521ABDF1" ++
  "CBA64ECFB850458DBEF0A8AEA71575D060C7DB3970F85A6E1E4C7ABF5AE8CDB0933D71E8C94E04A25619DCEE3D2261AD2EE6BF12FFA0" ++
  "6D98A0864D87602733EC86A64521F2B18177B200CBBE117577A615D6C770988C0BAD946E208E24FA074E5AB3143DB5BFCE0FD108E4B8" ++
  "2D120A93AD2CAFFFFFFFFFFFFFFFF"

/-- Generator literal of the 4096 bit group. -/
def rfc3526_4096G : String :=
  "02"

/-- Modulus literal of the 4096 bit group. -/
def rfc3526_4096P : String :=
  "FFFFFFFFFFFFFFFFC90FDAA22168C234C4C6628B80DC1CD129024E088A67CC74020BBEA63B139B22514A08798E3" ++
  "404DDEF9519B3CD3A431B302B0A6DF25F14374FE1356D6D51C245E485B576625E7EC6F44C42E9A637ED6B0BFF5CB6F406B7EDEE386BF" ++
  "B5A899FA5AE9F24117C4B1FE649286651ECE45B3DC2007CB8A163BF0598DA48361C55D39A69163FA8FD24CF5F83655D23DCA3AD961C6" ++
  "2F356208552BB9ED529077096966D670C354E4ABC9804F1746C08CA18217C32905E462E36CE3BE39E772C180E86039B2783A2EC07A28" ++
  "FB5C55DF06F4C52C9DE2BCBF6955817183995497CEA956AE515D2261898FA051015728E5A8AAAC42DAD33170D04507A33A85521ABDF1" ++
  "CBA64ECFB850458DBEF0A8AEA71575D060C7DB3970F85A6E1E4C7ABF5AE8CDB0933D71E8C94E04A25619DCEE3D2261AD2EE6BF12FFA0" ++
  "6D98A0864D87602733EC86A64521F2B18177B200CBBE117577A615D6C770988C0BAD946E208E24FA074E5AB3143DB5BFCE0FD108E4B8" ++
  "2D120A92108011A723C12A787E6D788719A10BDBA5B2699C327186AF4E23C1A946834B6150BDA2583E9CA2AD44CE8DBBBC2DB04DE8EF" ++
  "92E8EFC141FBECAA6287C59474E6BC05D99B2964FA090C3A2233BA186515BE7ED1F612970CEE2D7AFB81BDD762170481CD0069127D5B" ++
  "05AA993B4EA988D8FDDC186FFB7DC90A6C08F4DF435C934063199FFFFFFFFFFFFFFFF"

/-! ## `math/big`: parsing a numeral

The standard library is not part of the package; its documented behaviour is
written out here.  `(*big.Int).SetString(s, base)` for an explicit base
between 2 and 36: an
optional sign, then at least one digit, each of value below the base, and
nothing after the digits.  Letters of either case stand for ten and up. -/

/-- Value of one character as a digit (`nat.scan`): `0`-`9`, `a`-`z` and
`A`-`Z` from ten on, and a value above every base for any other character. -/
def digitVal (c : Char) : Nat :=
  if 48 ≤ c.toNat ∧ c.toNat ≤ 57 then c.toNat - 48
  else if 97 ≤ c.toNat ∧ c.toNat ≤ 122 then c.toNat - 97 + 10
  else if 65 ≤ c.toNat ∧ c.toNat ≤ 90 then c.toNat - 65 + 10
  else 63

/-- Consume digits of the given base, accumulating their value, and stop at the
first character that is not one; returns the value and the unread rest. -/
def scanDigits (base : Nat) : List Char → Nat → Nat × List Char
  | [], acc => (acc, [])
  | c :: cs, acc =>
    if digitVal c < base then scanDigits base cs (acc * base + digitVal c)
    else (acc, c :: cs)

/-- Scan an unsigned numeral (`nat.scan` with an explicit base): fails when no
digit is present. -/
def natScan (base : Nat) (cs : List Char) : Option (Nat × List Char) :=
  match cs with
  | [] => none
  | c :: _ => if digitVal c < base then some (scanDigits base cs 0) else none

/-- Strip one leading sign character (`scanSign`). -/
def scanSign : List Char → Bool × List Char
  | '-' :: cs => (true, cs)
  | '+' :: cs => (false, cs)
  | cs => (false, cs)

/-- The value `SetString(s, base)` stores, or `none` when it reports failure
(the whole string has to be consumed). -/
def setString (s : String) (base : Nat) : Option Int :=
  match natScan base (scanSign s.toList).2 with
  | some (n, []) => some (if (scanSign s.toList).1 then -(n : Int) else (n : Int))
  | _ => none

/-! ## The heap, the package variables and the `sync.Once` -/

/-- Modelled from the spec: the `Group` struct, which is declared outside
`groups.go`. It is a pair of a modulus `P` and a generator `G`, each a
`*big.Int`, as the composite literals of the accessors fill it. -/
structure Group where
  P : Option Nat
  G : Option Nat
  deriving DecidableEq

/-- Program state: the two heaps, the `done` flag of `once`, and the three
package variables.  `initAllRuns` is instrumentation: it counts the executions
of `initAll` and is read by no operation. -/
structure State where
  ints : List Int
  groups : List Group
  onceDone : Bool
  rfc3526_2048 : Option Nat
  rfc3526_3072 : Option Nat
  rfc3526_4096 : Option Nat
  initAllRuns : Nat
  deriving DecidableEq

/-- State at program start: empty heaps, `once` not done, variables nil. -/
def start : State :=
  { ints := [], groups := [], onceDone := false,
    rfc3526_2048 := none, rfc3526_3072 := none, rfc3526_4096 := none,
    initAllRuns := 0 }

/-- The expression `new(big.Int)`: a fresh cell holding zero. -/
def newInt (s : State) : Nat × State :=
  (s.ints.length, { s with ints := s.ints ++ [0] })

/-- The expression `&Group{P: p, G: g}`: a fresh `Group` cell. -/
def newGroup (g : Group) (s : State) : Nat × State :=
  (s.groups.length, { s with groups := s.groups ++ [g] })

/-- The call `z.SetString(str, base)`: on success the cell of `z` holds the
parsed value and `z` is returned; on failure nil is returned. -/
def bigSetString (z : Nat) (str : String) (base : Nat) (s : State) : Option Nat × State :=
  match setString str base with
  | some v => (some z, { s with ints := s.ints.set z v })
  | none => (none, s)

/-- The call `z.Set(x)`: copies the value of `x` into the cell of `z` and
returns `z`; dereferencing a nil `x` panics. -/
def bigSet (z : Nat) (x : Option Nat) (s : State) : Option (Nat × State) :=
  match x with
  | none => none
  | some a =>
    match s.ints[a]? with
    | none => none
    | some v => some (z, { s with ints := s.ints.set z v })

/-- Read through a `*Group`; nil panics. -/
def derefGroup (p : Option Nat) (s : State) : Option Group :=
  match p with
  | none => none
  | some a => s.groups[a]?

/-- The assignment `p.G = r`. -/
def storeG (p : Nat) (r : Option Nat) (s : State) : State :=
  match s.groups[p]? with
  | some g => { s with groups := s.groups.set p { g with G := r } }
  | none => s

/-- The assignment `p.P = r`. -/
def storeP (p : Nat) (r : Option Nat) (s : State) : State :=
  match s.groups[p]? with
  | some g => { s with groups := s.groups.set p { g with P := r } }
  | none => s

/-! ## The initialisers -/

/-- `initRFC3526_2048`: allocate the cached group, then parse `G` and `P`. -/
def initRFC3526_2048 (s : State) : State :=
  let (a, s) := newGroup { P := none, G := none } s
  let s := { s with rfc3526_2048 := some a }
  let (z, s) := newInt s
  let (r, s) := bigSetString z rfc3526_2048G 16 s
  let s := storeG a r s
  let (z, s) := newInt s
  let (r, s) := bigSetString z rfc3526_2048P 16 s
  storeP a r s

/-- `initRFC3526_3072`. -/
def initRFC3526_3072 (s : State) : State :=
  let (a, s) := newGroup { P := none, G := none } s
  let s := { s with rfc3526_3072 := some a }
  let (z, s) := newInt s
  let (r, s) := bigSetString z rfc3526_3072G 16 s
  let s := storeG a r s
  let (z, s) := newInt s
  let (r, s) := bigSetString z rfc3526_3072P 16 s
  storeP a r s

/-- `initRFC3526_4096`. -/
def initRFC3526_4096 (s : State) : State :=
  let (a, s) := newGroup { P := none, G := none } s
  let s := { s with rfc3526_4096 := some a }
  let (z, s) := newInt s
  let (r, s) := bigSetString z rfc3526_4096G 16 s
  let s := storeG a r s
  let (z, s) := newInt s
  let (r, s) := bigSetString z rfc3526_4096P 16 s
  storeP a r s

/-- `initAll`: the three initialisers in order (and one tick of the
instrumentation counter). -/
def initAll (s : State) : State :=
  let s := { s with initAllRuns := s.initAllRuns + 1 }
  let s := initRFC3526_2048 s
  let s := initRFC3526_3072 s
  initRFC3526_4096 s

/-- `once.Do(f)`: runs `f` and then sets the flag when the flag is clear; does
nothing when it is set. -/
def onceDo (f : State → State) (s : State) : State :=
  if s.onceDone then s else { f s with onceDone := true }

/-! ## The accessors -/

/-- `RFC3526_2048`: returns the address of the new group and the new state. -/
def RFC3526_2048 (s : State) : Option (Nat × State) := do
  let s := onceDo initAll s
  let (z, s) := newInt s
  let c ← derefGroup s.rfc3526_2048 s
  let (p, s) ← bigSet z c.P s
  let (z, s) := newInt s
  let c ← derefGroup s.rfc3526_2048 s
  let (g, s) ← bigSet z c.G s
  some (newGroup { P := some p, G := some g } s)

/-- `RFC3526_3072`. -/
def RFC3526_3072 (s : State) : Option (Nat × State) := do
  let s := onceDo initAll s
  let (z, s) := newInt s
  let c ← derefGroup s.rfc3526_3072 s
  let (p, s) ← bigSet z c.P s
  let (z, s) := newInt s
  let c ← derefGroup s.rfc3526_3072 s
  let (g, s) ← bigSet z c.G s
  some (newGroup { P := some p, G := some g } s)

/-- `RFC3526_4096`. -/
def RFC3526_4096 (s : State) : Option (Nat × State) := do
  let s := onceDo initAll s
  let (z, s) := newInt s
  let c ← derefGroup s.rfc3526_4096 s
  let (p, s) ← bigSet z c.P s
  let (z, s) := newInt s
  let c ← derefGroup s.rfc3526_4096 s
  let (g, s) ← bigSet z c.G s
  some (newGroup { P := some p, G := some g } s)

/-! ## Strength classes, call sequences and observations -/

/-- The three strength classes. -/
inductive Strength
  | s2048 | s3072 | s4096
  deriving DecidableEq

/-- Bit length promised for a class. -/
def Strength.bits : Strength → Nat
  | .s2048 => 2048
  | .s3072 => 3072
  | .s4096 => 4096

/-- The modulus literal of a class. -/
def literalP : Strength → String
  | .s2048 => rfc3526_2048P
  | .s3072 => rfc3526_3072P
  | .s4096 => rfc3526_4096P

/-- The generator literal of a class. -/
def literalG : Strength → String
  | .s2048 => rfc3526_2048G
  | .s3072 => rfc3526_3072G
  | .s4096 => rfc3526_4096G

/-- The accessor of a class. -/
def accessor : Strength → State → Option (Nat × State)
  | .s2048 => RFC3526_2048
  | .s3072 => RFC3526_3072
  | .s4096 => RFC3526_4096

/-- The package variable of a class. -/
def cachePtr : Strength → State → Option Nat
  | .s2048, s => s.rfc3526_2048
  | .s3072, s => s.rfc3526_3072
  | .s4096, s => s.rfc3526_4096

/-- A sequence of accessor calls, results dropped; `none` if a call panics. -/
def runCalls : List Strength → State → Option State
  | [], s => some s
  | c :: cs, s =>
    match accessor c s with
    | some (_, s1) => runCalls cs s1
    | none => none

/-- The numbers `(P, G)` a `*Group` denotes, if it and both fields are non-nil. -/
def readGroup (s : State) (g : Option Nat) : Option (Int × Int) := do
  let c ← derefGroup g s
  let p ← c.P
  let q ← c.G
  let pv ← s.ints[p]?
  let qv ← s.ints[q]?
  some (pv, qv)

/-- What is observable of one cache entry: the package variable, the `Group`
cell it points to, and the numbers that cell denotes. -/
def cacheEntry (c : Strength) (s : State) : Option Nat × Option Group × Option (Int × Int) :=
  (cachePtr c s, derefGroup (cachePtr c s) s, readGroup s (cachePtr c s))

/-- What is observable of the cache: the `done` flag and the three entries. -/
def cacheView (s : State) :
    Bool × List (Option Nat × Option Group × Option (Int × Int)) :=
  (s.onceDone, [cacheEntry .s2048 s, cacheEntry .s3072 s, cacheEntry .s4096 s])

/-- Effect on the heap of any mutating `big.Int` method called on the integer
at `z` by a caller: the cell is overwritten. -/
def overwriteInt (z : Nat) (v : Int) (s : State) : State :=
  { s with ints := s.ints.set z v }

/-- Upper-case hexadecimal digits of a natural number, most significant first,
without leading zeros. -/
def hexUpper (n : Nat) : List Char :=
  (Nat.toDigits 16 n).map Char.toUpper

/-! ## Canonical shape of an initialised state -/

/-- The number the modulus literal of a class denotes (zero if it did not parse). -/
def canonP (c : Strength) : Int :=
  (setString (literalP c) 16).getD 0

/-- Integer cells written by `initAll`, in allocation order. -/
def cacheInts : List Int :=
  [2, canonP .s2048, 2, canonP .s3072, 2, canonP .s4096]

/-- Group cells written by `initAll`, in allocation order. -/
def cacheGroups : List Group :=
  [{ P := some 1, G := some 0 }, { P := some 3, G := some 2 }, { P := some 5, G := some 4 }]

/-- An initialised state: the cells of the cache followed by the cells handed
out to callers. -/
def initialised (is : List Int) (gs : List Group) : State :=
  { ints := cacheInts ++ is, groups := cacheGroups ++ gs, onceDone := true,
    rfc3526_2048 := some 0, rfc3526_3072 := some 1, rfc3526_4096 := some 2,
    initAllRuns := 1 }

/-- Index of the cache cell of a class. -/
def cacheIndex : Strength → Nat
  | .s2048 => 0
  | .s3072 => 1
  | .s4096 => 2

/-- The `Group` cell a call made in `initialised is gs` allocates. -/
def handed (is : List Int) : Group :=
  { P := some (6 + is.length), G := some (6 + (is.length + 1)) }

/-- The group at `h` and the cache are observed in `s1` exactly as in `s`. -/
def Unchanged (s s1 : State) (h : Nat) : Prop :=
  readGroup s1 (some h) = readGroup s (some h) ∧ cacheView s1 = cacheView s

/-- Nothing a caller does to the group at `g`, whose fields point to the
integers at `p` and `q`, shows in the group at `h` or in the cache: neither
overwriting either integer with any value nor assigning any pointer to either
field. -/
def Independent (s : State) (g p q h : Nat) : Prop :=
  ∀ (v : Int) (r : Option Nat),
    Unchanged s (overwriteInt p v s) h ∧ Unchanged s (overwriteInt q v s) h ∧
      Unchanged s (storeP g r s) h ∧ Unchanged s (storeG g r s) h

/-! ## Facts about the literals -/

theorem setString_literalG (c : Strength) : setString (literalG c) 16 = some 2 := by
  cases c <;> rfl

theorem setString_literalP (c : Strength) : setString (literalP c) 16 = some (canonP c) := by
  cases c <;> rfl

theorem canonP_nonneg (c : Strength) : 0 ≤ canonP c := by
  cases c <;> decide

theorem canonP_toNat_lower (c : Strength) : 2 ^ (c.bits - 1) ≤ (canonP c).toNat := by
  cases c <;> decide

theorem canonP_toNat_upper (c : Strength) : (canonP c).toNat < 2 ^ c.bits := by
  cases c <;> decide

theorem canonP_lower (c : Strength) : (2 : Int) ^ (c.bits - 1) ≤ canonP c := by
  have h := canonP_toNat_lower c
  have h0 := Int.toNat_of_nonneg (canonP_nonneg c)
  rw [← h0]
  exact_mod_cast h

theorem canonP_upper (c : Strength) : canonP c < (2 : Int) ^ c.bits := by
  have h := canonP_toNat_upper c
  have h0 := Int.toNat_of_nonneg (canonP_nonneg c)
  rw [← h0]
  exact_mod_cast h

/-! ## The first call and the later calls -/

theorem set_length_append (l : List Int) (x v : Int) :
    (l ++ [x]).set l.length v = l ++ [v] := by
  induction l with
  | nil => rfl
  | cons a l ih => simp [ih]

theorem accessor_initialised (c : Strength) (is : List Int) (gs : List Group) :
    accessor c (initialised is gs) =
      some (3 + gs.length, initialised (is ++ [canonP c, 2]) (gs ++ [handed is])) := by
  cases c <;>
    simp [accessor, RFC3526_2048, RFC3526_3072, RFC3526_4096, onceDo, initialised, newInt,
      derefGroup, bigSet, newGroup, cacheInts, cacheGroups, set_length_append, handed] <;>
    refine ⟨?_, ?_, ?_⟩ <;> omega

theorem accessor_start (c : Strength) :
    accessor c start = some (3, initialised [canonP c, 2] [handed []]) := by
  cases c <;> rfl

theorem runCalls_initialised (cs : List Strength) (is : List Int) (gs : List Group) :
    ∃ is1 gs1, runCalls cs (initialised is gs) = some (initialised (is ++ is1) (gs ++ gs1)) := by
  induction cs generalizing is gs with
  | nil => exact ⟨[], [], by simp [runCalls]⟩
  | cons c cs ih =>
    obtain ⟨is1, gs1, h⟩ := ih (is ++ [canonP c, 2]) (gs ++ [handed is])
    refine ⟨[canonP c, 2] ++ is1, [handed is] ++ gs1, ?_⟩
    simp only [runCalls, accessor_initialised]
    simpa [List.append_assoc] using h

/-- State in which a call made after the calls `pre` starts: the start state
when `pre` is empty, an initialised state otherwise; and what that call
returns. -/
theorem call_after (pre : List Strength) (c : Strength) :
    ∃ s0 is gs, runCalls pre start = some s0 ∧
      ((pre = [] ∧ s0 = start ∧ is = [] ∧ gs = []) ∨ (pre ≠ [] ∧ s0 = initialised is gs)) ∧
      accessor c s0 =
        some (3 + gs.length, initialised (is ++ [canonP c, 2]) (gs ++ [handed is])) := by
  cases pre with
  | nil =>
    exact ⟨start, [], [], rfl, Or.inl ⟨rfl, rfl, rfl, rfl⟩, by simpa using accessor_start c⟩
  | cons c0 cs =>
    obtain ⟨is1, gs1, h⟩ := runCalls_initialised cs [canonP c0, 2] [handed []]
    refine ⟨initialised ([canonP c0, 2] ++ is1) ([handed []] ++ gs1),
      [canonP c0, 2] ++ is1, [handed []] ++ gs1, ?_,
      Or.inr ⟨by simp, rfl⟩, accessor_initialised c _ _⟩
    simp only [runCalls, accessor_start]
    exact h

/-! ## Reading an initialised state -/

theorem cachePtr_initialised (k : Strength) (is : List Int) (gs : List Group) :
    cachePtr k (initialised is gs) = some (cacheIndex k) := by
  cases k <;> rfl

theorem cacheEntry_initialised (k : Strength) (is : List Int) (gs : List Group) :
    cacheEntry k (initialised is gs) =
      (some (cacheIndex k),
        some { P := some (2 * cacheIndex k + 1), G := some (2 * cacheIndex k) },
        some (canonP k, 2)) := by
  cases k <;>
    simp [cacheEntry, cachePtr, derefGroup, readGroup, initialised, cacheInts, cacheGroups,
      cacheIndex]

theorem cacheView_initialised (is : List Int) (gs : List Group) :
    cacheView (initialised is gs) = cacheView (initialised [] []) := by
  simp only [cacheView, cacheEntry_initialised]
  rfl

theorem groups_initialised (is : List Int) (gs : List Group) (i : Nat) :
    (initialised is gs).groups[3 + i]? = gs[i]? := by
  simp [initialised, cacheGroups, Nat.add_comm 3 i]

theorem ints_initialised (is : List Int) (gs : List Group) (i : Nat) :
    (initialised is gs).ints[6 + i]? = is[i]? := by
  simp [initialised, cacheInts, Nat.add_comm 6 i]

theorem readGroup_handed (is : List Int) (gs : List Group) (g : Nat) (a b : Nat)
    (hg : gs[g]? = some { P := some (6 + a), G := some (6 + b) }) :
    readGroup (initialised is gs) (some (3 + g)) =
      (is[a]?).bind fun p => (is[b]?).bind fun q => some (p, q) := by
  have h := groups_initialised is gs g
  simp [readGroup, derefGroup, h, hg, ints_initialised]

theorem readGroup_congr (is is1 : List Int) (gs gs1 : List Group) (g a b : Nat)
    (hg : gs[g]? = some { P := some (6 + a), G := some (6 + b) })
    (hg1 : gs1[g]? = gs[g]?) (ha : is1[a]? = is[a]?) (hb : is1[b]? = is[b]?) :
    readGroup (initialised is1 gs1) (some (3 + g)) = readGroup (initialised is gs) (some (3 + g)) := by
  rw [readGroup_handed is gs g a b hg, readGroup_handed is1 gs1 g a b (hg1.trans hg), ha, hb]

theorem getElem?_append_zero {α : Type} (l r : List α) (x : α) :
    (l ++ x :: r)[l.length]? = some x := by
  rw [List.getElem?_append_right (le_refl _)]
  simp

theorem getElem?_append_one {α : Type} (l r : List α) (x y : α) :
    (l ++ x :: y :: r)[l.length + 1]? = some y := by
  rw [List.getElem?_append_right (by omega)]
  simp

theorem readGroup_returned (is : List Int) (gs : List Group) (p q : Int) :
    readGroup (initialised (is ++ [p, q]) (gs ++ [handed is])) (some (3 + gs.length)) =
      some (p, q) := by
  rw [readGroup_handed _ _ gs.length is.length (is.length + 1)
    (getElem?_append_zero gs [] (handed is)),
    getElem?_append_zero, getElem?_append_one]
  rfl

/-! ## Caller mutations of an initialised state -/

theorem overwriteInt_initialised (is : List Int) (gs : List Group) (i : Nat) (v : Int) :
    overwriteInt (6 + i) v (initialised is gs) = initialised (is.set i v) gs := by
  simp [overwriteInt, initialised, cacheInts, Nat.add_comm 6 i]

theorem storeP_initialised (is : List Int) (gs : List Group) (i : Nat) (r : Option Nat) :
    ∃ gs1, storeP (3 + i) r (initialised is gs) = initialised is gs1 ∧
      ∀ j, j ≠ i → gs1[j]? = gs[j]? := by
  have h := groups_initialised is gs i
  unfold storeP
  cases hi : gs[i]? with
  | none => exact ⟨gs, by simp [h, hi], fun _ _ => rfl⟩
  | some g =>
    refine ⟨gs.set i { g with P := r }, ?_, fun j hj => by
      simp [List.getElem?_set_ne (Ne.symm hj)]⟩
    simp [h, hi]
    simp [initialised, cacheGroups, Nat.add_comm 3 i]

theorem storeG_initialised (is : List Int) (gs : List Group) (i : Nat) (r : Option Nat) :
    ∃ gs1, storeG (3 + i) r (initialised is gs) = initialised is gs1 ∧
      ∀ j, j ≠ i → gs1[j]? = gs[j]? := by
  have h := groups_initialised is gs i
  unfold storeG
  cases hi : gs[i]? with
  | none => exact ⟨gs, by simp [h, hi], fun _ _ => rfl⟩
  | some g =>
    refine ⟨gs.set i { g with G := r }, ?_, fun j hj => by
      simp [List.getElem?_set_ne (Ne.symm hj)]⟩
    simp [h, hi]
    simp [initialised, cacheGroups, Nat.add_comm 3 i]

/-- Overwriting one integer cell handed out to a caller changes neither a
group that does not point to it nor the cache. -/
theorem frame_overwriteInt (is : List Int) (gs : List Group) (i : Nat) (v : Int)
    (g a b : Nat) (hg : gs[g]? = some { P := some (6 + a), G := some (6 + b) })
    (ha : i ≠ a) (hb : i ≠ b) :
    readGroup (overwriteInt (6 + i) v (initialised is gs)) (some (3 + g)) =
        readGroup (initialised is gs) (some (3 + g)) ∧
      cacheView (overwriteInt (6 + i) v (initialised is gs)) = cacheView (initialised is gs) := by
  rw [overwriteInt_initialised]
  exact ⟨readGroup_congr is _ gs gs g a b hg rfl (List.getElem?_set_ne ha)
    (List.getElem?_set_ne hb), by rw [cacheView_initialised, ← cacheView_initialised is gs]⟩

/-- Assigning to the `P` field of one group handed out to a caller changes
neither another group nor the cache. -/
theorem frame_storeP (is : List Int) (gs : List Group) (i : Nat) (r : Option Nat)
    (g a b : Nat) (hg : gs[g]? = some { P := some (6 + a), G := some (6 + b) })
    (hne : g ≠ i) :
    readGroup (storeP (3 + i) r (initialised is gs)) (some (3 + g)) =
        readGroup (initialised is gs) (some (3 + g)) ∧
      cacheView (storeP (3 + i) r (initialised is gs)) = cacheView (initialised is gs) := by
  obtain ⟨gs1, h1, h2⟩ := storeP_initialised is gs i r
  rw [h1]
  exact ⟨readGroup_congr is is gs gs1 g a b hg (h2 g hne) rfl rfl,
    by rw [cacheView_initialised, ← cacheView_initialised is gs]⟩

/-- Assigning to the `G` field of one group handed out to a caller changes
neither another group nor the cache. -/
theorem frame_storeG (is : List Int) (gs : List Group) (i : Nat) (r : Option Nat)
    (g a b : Nat) (hg : gs[g]? = some { P := some (6 + a), G := some (6 + b) })
    (hne : g ≠ i) :
    readGroup (storeG (3 + i) r (initialised is gs)) (some (3 + g)) =
        readGroup (initialised is gs) (some (3 + g)) ∧
      cacheView (storeG (3 + i) r (initialised is gs)) = cacheView (initialised is gs) := by
  obtain ⟨gs1, h1, h2⟩ := storeG_initialised is gs i r
  rw [h1]
  exact ⟨readGroup_congr is is gs gs1 g a b hg (h2 g hne) rfl rfl,
    by rw [cacheView_initialised, ← cacheView_initialised is gs]⟩

theorem derefGroup_cache (k : Strength) (is : List Int) (gs : List Group) :
    derefGroup (some (cacheIndex k)) (initialised is gs) =
      some { P := some (2 * cacheIndex k + 1), G := some (2 * cacheIndex k) } := by
  have h := cacheEntry_initialised k is gs
  simp only [cacheEntry, cachePtr_initialised, Prod.mk.injEq] at h
  exact h.2.1

theorem readGroup_cache (k : Strength) (is : List Int) (gs : List Group) :
    readGroup (initialised is gs) (some (cacheIndex k)) = some (canonP k, 2) := by
  have h := cacheEntry_initialised k is gs
  simp only [cacheEntry, cachePtr_initialised, Prod.mk.injEq] at h
  exact h.2.2

theorem ints_cache (k : Strength) (is : List Int) (gs : List Group) :
    (initialised is gs).ints[2 * cacheIndex k + 1]? = some (canonP k) ∧
      (initialised is gs).ints[2 * cacheIndex k]? = some 2 := by
  cases k <;> simp [initialised, cacheInts, cacheIndex]

theorem derefGroup_handed (is : List Int) (gs : List Group) (i : Nat) :
    derefGroup (some (3 + i)) (initialised is gs) = gs[i]? :=
  groups_initialised is gs i

/-- Two calls of the same accessor, after any calls and with any calls in
between: the four states and the two results. -/
theorem two_calls (pre mid : List Strength) (c : Strength) :
    ∃ s0 is gs is1 gs1, runCalls pre start = some s0 ∧
      ((pre = [] ∧ s0 = start ∧ is = [] ∧ gs = []) ∨ (pre ≠ [] ∧ s0 = initialised is gs)) ∧
      accessor c s0 =
        some (3 + gs.length, initialised (is ++ [canonP c, 2]) (gs ++ [handed is])) ∧
      runCalls mid (initialised (is ++ [canonP c, 2]) (gs ++ [handed is])) =
        some (initialised (is ++ [canonP c, 2] ++ is1) (gs ++ [handed is] ++ gs1)) ∧
      accessor c (initialised (is ++ [canonP c, 2] ++ is1) (gs ++ [handed is] ++ gs1)) =
        some (3 + (gs ++ [handed is] ++ gs1).length,
          initialised (is ++ [canonP c, 2] ++ is1 ++ [canonP c, 2])
            (gs ++ [handed is] ++ gs1 ++ [handed (is ++ [canonP c, 2] ++ is1)])) := by
  obtain ⟨s0, is, gs, hrun, hs0, hacc⟩ := call_after pre c
  obtain ⟨is1, gs1, hmid⟩ := runCalls_initialised mid (is ++ [canonP c, 2]) (gs ++ [handed is])
  exact ⟨s0, is, gs, is1, gs1, hrun, hs0, hacc, hmid, accessor_initialised c _ _⟩

/-! ## The claims -/

/-- C1: after any sequence of calls, the accessor of each strength class
returns a group whose modulus is the number obtained by parsing the modulus
literal of that class in base 16, and this number has bit length exactly the size of
the class: it is at least `2 ^ (bits - 1)` and below `2 ^ bits`. -/
theorem C1_modulus_bit_length (pre : List Strength) (c : Strength) :
    ∃ s0 g s1 p q, runCalls pre start = some s0 ∧ accessor c s0 = some (g, s1) ∧
      readGroup s1 (some g) = some (p, q) ∧ setString (literalP c) 16 = some p ∧
      (2 : Int) ^ (c.bits - 1) ≤ p ∧ p < (2 : Int) ^ c.bits := by
  obtain ⟨s0, is, gs, hrun, -, hacc⟩ := call_after pre c
  exact ⟨s0, _, _, canonP c, 2, hrun, hacc, readGroup_returned is gs _ _,
    setString_literalP c, canonP_lower c, canonP_upper c⟩

/-- C2: after any sequence of calls, the accessor of each strength class
returns a group whose generator is the integer 2, the number parsed from the
generator literal of the class. -/
theorem C2_generator_is_two (pre : List Strength) (c : Strength) :
    ∃ s0 g s1 p, runCalls pre start = some s0 ∧ accessor c s0 = some (g, s1) ∧
      readGroup s1 (some g) = some (p, 2) ∧ setString (literalG c) 16 = some 2 := by
  obtain ⟨s0, is, gs, hrun, -, hacc⟩ := call_after pre c
  exact ⟨s0, _, _, canonP c, hrun, hacc, readGroup_returned is gs _ _, setString_literalG c⟩

/-- C3: after any sequence of calls, `RFC3526_2048` returns a group whose
generator is 2 and whose modulus is a non-negative number whose upper-case
hexadecimal form without leading zeros begins with
`FFFFFFFFFFFFFFFFC90FDAA22168C234C4C6628B80DC1CD129024E088A67CC74` and ends with
`AACAA68FFFFFFFFFFFFFFFF`. -/
theorem C3_rfc3526_2048_hex_form (pre : List Strength) :
    ∃ s0 g s1 p, runCalls pre start = some s0 ∧ RFC3526_2048 s0 = some (g, s1) ∧
      readGroup s1 (some g) = some (p, 2) ∧ 0 ≤ p ∧
      "FFFFFFFFFFFFFFFFC90FDAA22168C234C4C6628B80DC1CD129024E088A67CC74".toList <+:
        hexUpper p.toNat ∧
      "AACAA68FFFFFFFFFFFFFFFF".toList <:+ hexUpper p.toNat := by
  obtain ⟨s0, is, gs, hrun, -, hacc⟩ := call_after pre .s2048
  exact ⟨s0, _, _, canonP .s2048, hrun, hacc, readGroup_returned is gs _ _,
    canonP_nonneg _, by decide, by decide⟩

/-- C4: two calls of the accessor of one class, after any calls and with any
calls in between, return groups that denote the same numbers as each other and
as the cache entry, while the two `Group` cells and the cell of the cache are three
different cells and the six integers they point to are six different cells;
overwriting an integer of either returned group, or assigning to a field of
either, leaves the other returned group and the whole cache as they were. -/
theorem C4_copies_are_independent (pre mid : List Strength) (c : Strength) :
    ∃ s0 g1 s1 s2 g2 s3 p1 q1 p2 q2 k kp kq,
      runCalls pre start = some s0 ∧ accessor c s0 = some (g1, s1) ∧
      runCalls mid s1 = some s2 ∧ accessor c s2 = some (g2, s3) ∧
      derefGroup (some g1) s3 = some { P := some p1, G := some q1 } ∧
      derefGroup (some g2) s3 = some { P := some p2, G := some q2 } ∧
      cachePtr c s3 = some k ∧
      derefGroup (some k) s3 = some { P := some kp, G := some kq } ∧
      (readGroup s3 (some g1)).isSome = true ∧
      readGroup s3 (some g1) = readGroup s3 (some g2) ∧
      readGroup s3 (some g1) = readGroup s3 (some k) ∧
      [g1, g2, k].Nodup ∧ [p1, q1, p2, q2, kp, kq].Nodup ∧
      Independent s3 g1 p1 q1 g2 ∧ Independent s3 g2 p2 q2 g1 := by
  obtain ⟨s0, is, gs, is1, gs1, hrun, -, hacc, hmid, hacc2⟩ := two_calls pre mid c
  have hg1 : (gs ++ [handed is] ++ gs1 ++ [handed (is ++ [canonP c, 2] ++ is1)])[gs.length]? =
      some (handed is) := by
    simp only [List.append_assoc, List.singleton_append]
    exact getElem?_append_zero _ _ _
  have hg2 : (gs ++ [handed is] ++ gs1 ++
      [handed (is ++ [canonP c, 2] ++ is1)])[(gs ++ [handed is] ++ gs1).length]? =
      some (handed (is ++ [canonP c, 2] ++ is1)) := getElem?_append_zero _ _ _
  have hi1 : (is ++ [canonP c, 2] ++ is1 ++ [canonP c, 2])[is.length]? = some (canonP c) := by
    simp only [List.append_assoc, List.cons_append]
    exact getElem?_append_zero _ _ _
  have hi2 : (is ++ [canonP c, 2] ++ is1 ++ [canonP c, 2])[is.length + 1]? = some 2 := by
    simp only [List.append_assoc, List.cons_append]
    exact getElem?_append_one _ _ _ _
  have hr1 : readGroup (initialised (is ++ [canonP c, 2] ++ is1 ++ [canonP c, 2])
      (gs ++ [handed is] ++ gs1 ++ [handed (is ++ [canonP c, 2] ++ is1)]))
      (some (3 + gs.length)) = some (canonP c, 2) := by
    rw [readGroup_handed _ _ gs.length is.length (is.length + 1) hg1, hi1, hi2]
    rfl
  have hl1 : (is ++ [canonP c, 2] ++ is1).length = is.length + 2 + is1.length := by
    simp only [List.length_append, List.length_cons, List.length_nil]
  have hl2 : (gs ++ [handed is] ++ gs1).length = gs.length + 1 + gs1.length := by
    simp only [List.length_append, List.length_cons, List.length_nil]
  refine ⟨s0, _, _, _, _, _, 6 + is.length, 6 + (is.length + 1),
    6 + (is ++ [canonP c, 2] ++ is1).length, 6 + ((is ++ [canonP c, 2] ++ is1).length + 1),
    cacheIndex c, 2 * cacheIndex c + 1, 2 * cacheIndex c,
    hrun, hacc, hmid, hacc2, ?_, ?_, cachePtr_initialised c _ _, derefGroup_cache c _ _,
    ?_, ?_, ?_, ?_, ?_, ?_, ?_⟩
  · rw [derefGroup_handed, hg1]; rfl
  · rw [derefGroup_handed, hg2]; rfl
  · rw [hr1]; rfl
  · rw [hr1, readGroup_returned]
  · rw [hr1, readGroup_cache]
  · rw [hl2]
    cases c <;> simp [cacheIndex] <;> omega
  · rw [hl1]
    cases c <;> simp [cacheIndex] <;> omega
  · intro v r
    refine ⟨frame_overwriteInt _ _ _ v _ _ _ hg2 ?_ ?_, frame_overwriteInt _ _ _ v _ _ _ hg2 ?_ ?_,
      frame_storeP _ _ _ r _ _ _ hg2 ?_, frame_storeG _ _ _ r _ _ _ hg2 ?_⟩ <;>
      simp only [hl1, hl2] <;> omega
  · intro v r
    refine ⟨frame_overwriteInt _ _ _ v _ _ _ hg1 ?_ ?_, frame_overwriteInt _ _ _ v _ _ _ hg1 ?_ ?_,
      frame_storeP _ _ _ r _ _ _ hg1 ?_, frame_storeG _ _ _ r _ _ _ hg1 ?_⟩ <;>
      simp only [hl1, hl2] <;> omega

/-- C5: in any sequence of accessor calls, of any mix and order, `initAll` runs
at most once and exactly once if the sequence is not empty. After the calls
`pre` it has run zero times if `pre` is empty and once otherwise, and after
one more call, of any accessor, it has run exactly once: the first call runs
it and no later call does. -/
theorem C5_initAll_runs_once (pre : List Strength) (c : Strength) :
    ∃ s0 g s1, runCalls pre start = some s0 ∧ accessor c s0 = some (g, s1) ∧
      s0.initAllRuns = (if pre = [] then 0 else 1) ∧
      s0.onceDone = (if pre = [] then false else true) ∧
      s1.initAllRuns = 1 ∧ s1.onceDone = true := by
  obtain ⟨s0, is, gs, hrun, hs0, hacc⟩ := call_after pre c
  refine ⟨s0, _, _, hrun, hacc, ?_, ?_, rfl, rfl⟩
  · rcases hs0 with ⟨hp, rfl, -, -⟩ | ⟨hp, rfl⟩
    · rw [if_pos hp]; rfl
    · rw [if_neg hp]; rfl
  · rcases hs0 with ⟨hp, rfl, -, -⟩ | ⟨hp, rfl⟩
    · rw [if_pos hp]; rfl
    · rw [if_neg hp]; rfl

/-- C6: the accessors cannot fail. Each of the six literals parses in base 16,
and after any sequence of calls (none of which panics) every accessor returns
a group whose two fields are non-nil pointers to integers, while every cache
entry is a non-nil group with non-nil fields. -/
theorem C6_accessors_cannot_fail :
    (∀ c, (setString (literalG c) 16).isSome = true ∧
      (setString (literalP c) 16).isSome = true) ∧
    ∀ (pre : List Strength) (c : Strength),
      ∃ s0 g s1 p q, runCalls pre start = some s0 ∧ accessor c s0 = some (g, s1) ∧
        derefGroup (some g) s1 = some { P := some p, G := some q } ∧
        (s1.ints[p]?).isSome = true ∧ (s1.ints[q]?).isSome = true ∧
        ∀ k, ∃ a kp kq, cachePtr k s1 = some a ∧
          derefGroup (some a) s1 = some { P := some kp, G := some kq } ∧
          (s1.ints[kp]?).isSome = true ∧ (s1.ints[kq]?).isSome = true := by
  refine ⟨fun c => ?_, fun pre c => ?_⟩
  · rw [setString_literalG, setString_literalP]
    exact ⟨rfl, rfl⟩
  · obtain ⟨s0, is, gs, hrun, -, hacc⟩ := call_after pre c
    refine ⟨s0, _, _, 6 + is.length, 6 + (is.length + 1), hrun, hacc, ?_, ?_, ?_, fun k => ?_⟩
    · rw [derefGroup_handed, getElem?_append_zero]; rfl
    · rw [ints_initialised, getElem?_append_zero]; rfl
    · rw [ints_initialised, getElem?_append_one]; rfl
    · refine ⟨cacheIndex k, 2 * cacheIndex k + 1, 2 * cacheIndex k, cachePtr_initialised k _ _,
        derefGroup_cache k _ _, ?_, ?_⟩
      · rw [(ints_cache k _ _).1]; rfl
      · rw [(ints_cache k _ _).2]; rfl

/-- C9: the first call populates all three cache entries together. At the
start all three package variables are nil; after one call of any accessor each
of the three is a non-nil group whose `P` and `G` hold the numbers parsed from
the literals of that class, and a following call of any accessor succeeds without
running `initAll` again and returns the numbers of its cache entry. -/
theorem C9_first_call_populates_all (c : Strength) :
    (∀ k, cachePtr k start = none) ∧
    ∃ g s, accessor c start = some (g, s) ∧
      ∀ k, ∃ a kp kq, cachePtr k s = some a ∧
        derefGroup (some a) s = some { P := some kp, G := some kq } ∧
        (s.ints[kp]?).isSome = true ∧ s.ints[kp]? = setString (literalP k) 16 ∧
        (s.ints[kq]?).isSome = true ∧ s.ints[kq]? = setString (literalG k) 16 ∧
        ∃ g2 s2, accessor k s = some (g2, s2) ∧ s2.initAllRuns = s.initAllRuns ∧
          readGroup s2 (some g2) = readGroup s (some a) := by
  refine ⟨fun k => by cases k <;> rfl, _, _, accessor_start c, fun k => ?_⟩
  refine ⟨cacheIndex k, 2 * cacheIndex k + 1, 2 * cacheIndex k, cachePtr_initialised k _ _,
    derefGroup_cache k _ _, ?_, ?_, ?_, ?_, _, _, accessor_initialised k _ _, rfl, ?_⟩
  · rw [(ints_cache k _ _).1]; rfl
  · rw [(ints_cache k _ _).1, setString_literalP]
  · rw [(ints_cache k _ _).2]; rfl
  · rw [(ints_cache k _ _).2, setString_literalG]
  · rw [readGroup_returned, readGroup_cache]

/-- C10: once initialised, the cache never changes and the state stays
initialised. In the state after one or more calls the `done` flag is set; a
further call of any accessor, any calls after it, and a second call of the
same accessor each leave the cache (the `done` flag, the three package
variables, the three cached groups and the numbers they denote) as it was,
none of them runs `initAll`, and the second call returns the same numbers as
the first. -/
theorem C10_cache_immutable (c0 : Strength) (rest mid : List Strength) (c : Strength) :
    ∃ s g s1 s2 g2 s3, runCalls (c0 :: rest) start = some s ∧ s.onceDone = true ∧
      accessor c s = some (g, s1) ∧ cacheView s1 = cacheView s ∧
      runCalls mid s1 = some s2 ∧ cacheView s2 = cacheView s ∧
      accessor c s2 = some (g2, s3) ∧ cacheView s3 = cacheView s ∧
      s3.onceDone = true ∧ s3.initAllRuns = s.initAllRuns ∧
      (readGroup s1 (some g)).isSome = true ∧
      readGroup s3 (some g2) = readGroup s1 (some g) := by
  obtain ⟨s0, is, gs, is1, gs1, hrun, hs0, hacc, hmid, hacc2⟩ := two_calls (c0 :: rest) mid c
  rcases hs0 with ⟨hp, -, -, -⟩ | ⟨-, rfl⟩
  · exact absurd hp (by simp)
  · refine ⟨_, _, _, _, _, _, hrun, rfl, hacc, ?_, hmid, ?_, hacc2, ?_, rfl, rfl, ?_, ?_⟩
    · rw [cacheView_initialised, ← cacheView_initialised is gs]
    · rw [cacheView_initialised, ← cacheView_initialised is gs]
    · rw [cacheView_initialised, ← cacheView_initialised is gs]
    · rw [readGroup_returned]; rfl
    · rw [readGroup_returned, readGroup_returned]

end Dh
